import Mathlib

/-!
Verification of the note-keeper backend (`src/notes_backend/src/api/`).

The data model (`models.py`), the in-memory repository (`repository.py`)
and the DELETE handler (`main.py`) are shallowly embedded below.  The
Python `dict` backing the repository is modelled as an insertion-ordered
association list with unique keys; timestamps are natural numbers; the
random source of `uuid.uuid4()` is an explicit 128-bit natural number.
-/

namespace NotesBackend

/-! ### `models.py`: id generation

`generate_note_id` returns `str(uuid.uuid4())`: sixteen random bytes with
the version nibble (bits 76-79) forced to 4 and the variant bits (62-63)
forced to `10`, printed as 32 lowercase hex digits with hyphens after
digits 8, 12, 16 and 20. -/

def hexChar (n : Nat) : Char :=
  if n < 10 then Char.ofNat (48 + n) else Char.ofNat (87 + n)

def hexDigits : Nat → Nat → List Char
  | 0, _ => []
  | w + 1, n => hexDigits w (n / 16) ++ [hexChar (n % 16)]

def uuid4Int (r : Nat) : Nat :=
  let n := r % 2 ^ 128
  let lo62 := n % 2 ^ 62
  let mid12 := n / 2 ^ 64 % 2 ^ 12
  let hi48 := n / 2 ^ 80
  hi48 * 2 ^ 80 + 4 * 2 ^ 76 + mid12 * 2 ^ 64 + 2 * 2 ^ 62 + lo62

def uuidChars (n : Nat) : List Char :=
  let h := hexDigits 32 n
  h.take 8 ++ ['-'] ++ (h.drop 8).take 4 ++ ['-'] ++ (h.drop 12).take 4
    ++ ['-'] ++ (h.drop 16).take 4 ++ ['-'] ++ h.drop 20

def generate_note_id (r : Nat) : String :=
  String.mk (uuidChars (uuid4Int r))

/-! ### `models.py`: pydantic models -/

structure Note where
  id : String
  title : String
  content : String
  created_at : Nat
  updated_at : Nat
deriving Repr, DecidableEq

structure NoteCreate where
  title : String
  content : String
deriving Repr, DecidableEq

structure NoteUpdate where
  title : Option String
  content : Option String
deriving Repr, DecidableEq

/-- Upstream pydantic validation of `NoteCreate`: `title` has `min_length=1`. -/
def NoteCreate.valid (nc : NoteCreate) : Bool :=
  nc.title ≠ ""

/-- Upstream pydantic validation of `NoteUpdate`: `title`, when provided,
has `min_length=1`. -/
def NoteUpdate.valid (nu : NoteUpdate) : Bool :=
  match nu.title with
  | none => true
  | some t => t ≠ ""

/-! ### `repository.py`: the dict `self.notes`

A Python dict is insertion ordered: assigning to an existing key keeps
its position, assigning a fresh key appends, `pop` removes the entry. -/

abbrev Store := List (String × Note)

def storeGet (s : Store) (k : String) : Option Note :=
  match s with
  | [] => none
  | (k', v) :: rest => if k' = k then some v else storeGet rest k

def storeSet (s : Store) (k : String) (v : Note) : Store :=
  match s with
  | [] => [(k, v)]
  | (k', v') :: rest => if k' = k then (k, v) :: rest else (k', v') :: storeSet rest k v

def storeDel (s : Store) (k : String) : Store :=
  match s with
  | [] => []
  | (k', v') :: rest => if k' = k then rest else (k', v') :: storeDel rest k

/-- Well-formedness of the dict model: keys occur at most once. -/
def StoreWF (s : Store) : Prop :=
  (s.map Prod.fst).Nodup

instance (s : Store) : Decidable (StoreWF s) :=
  inferInstanceAs (Decidable ((s.map Prod.fst).Nodup))

/-! ### `repository.py`: the five operations

`datetime.utcnow()` is the explicit argument `now`; the randomness
consumed by `generate_note_id` is the explicit argument `r`.  State is
threaded explicitly: each mutating operation returns its result together
with the new store. -/

def create_note (s : Store) (note_create : NoteCreate) (now : Nat) (r : Nat) :
    Note × Store :=
  let note_id := generate_note_id r
  let note : Note :=
    { id := note_id, title := note_create.title, content := note_create.content,
      created_at := now, updated_at := now }
  (note, storeSet s note_id note)

def get_note (s : Store) (note_id : String) : Option Note :=
  storeGet s note_id

def update_note (s : Store) (note_id : String) (note_update : NoteUpdate)
    (now : Nat) : Option Note × Store :=
  match storeGet s note_id with
  | none => (none, s)
  | some note =>
    let updated : Note :=
      { note with
        title := note_update.title.getD note.title,
        content := note_update.content.getD note.content,
        updated_at := now }
    (some updated, storeSet s note_id updated)

def delete_note (s : Store) (note_id : String) : Bool × Store :=
  match storeGet s note_id with
  | none => (false, s)
  | some _ => (true, storeDel s note_id)

def list_notes (s : Store) : List Note :=
  s.map Prod.snd

/-! ### `main.py`: the DELETE /notes/\x7bnote_id\x7d handler

The handler calls `note_repository.delete_note` and either raises
`HTTPException(404, "Note not found")` or answers 204 with an empty body. -/

inductive HandlerResult where
  | ok (status : Nat)
  | httpError (status : Nat) (detail : String)
deriving Repr, DecidableEq

def delete_note_endpoint (s : Store) (note_id : String) : HandlerResult × Store :=
  let r := delete_note s note_id
  if r.1 then (HandlerResult.ok 204, r.2)
  else (HandlerResult.httpError 404 "Note not found", r.2)

/-! ### Trace semantics

Reachable states: any finite sequence of repository operations starting
from the empty store.  Each step carries the value `datetime.utcnow()`
returned at that step; create steps also carry the randomness consumed
by `uuid.uuid4()`. -/

inductive Op where
  | create (nc : NoteCreate) (r : Nat)
  | get (note_id : String)
  | update (note_id : String) (nu : NoteUpdate)
  | delete (note_id : String)
  | listAll
deriving Repr, DecidableEq

def applyOp (s : Store) (op : Op) (now : Nat) : Store :=
  match op with
  | Op.create nc r => (create_note s nc now r).2
  | Op.get _ => s
  | Op.update note_id nu => (update_note s note_id nu now).2
  | Op.delete note_id => (delete_note s note_id).2
  | Op.listAll => s

def run (s : Store) : List (Op × Nat) → Store
  | [] => s
  | (op, now) :: rest => run (applyOp s op now) rest

/-- The clock is monotone along the trace and never behind `t`. -/
def TimesFrom (t : Nat) : List (Op × Nat) → Prop
  | [] => True
  | (_, now) :: rest => t ≤ now ∧ TimesFrom now rest

instance : ∀ (t : Nat) (tr : List (Op × Nat)), Decidable (TimesFrom t tr)
  | _, [] => isTrue trivial
  | t, (_, now) :: rest =>
    have : Decidable (TimesFrom now rest) := instDecidableTimesFrom now rest
    inferInstanceAs (Decidable (t ≤ now ∧ TimesFrom now rest))

/-- Every create along the trace receives a validated title, and every
update receives a validated (unset or non-empty) title. -/
def ValidTitles : List (Op × Nat) → Prop
  | [] => True
  | (Op.create nc _, _) :: rest => nc.valid = true ∧ ValidTitles rest
  | (Op.update _ nu, _) :: rest => nu.valid = true ∧ ValidTitles rest
  | _ :: rest => ValidTitles rest

instance : ∀ (tr : List (Op × Nat)), Decidable (ValidTitles tr)
  | [] => isTrue trivial
  | (Op.create nc _, _) :: rest =>
    have : Decidable (ValidTitles rest) := instDecidableValidTitles rest
    inferInstanceAs (Decidable (nc.valid = true ∧ ValidTitles rest))
  | (Op.update _ nu, _) :: rest =>
    have : Decidable (ValidTitles rest) := instDecidableValidTitles rest
    inferInstanceAs (Decidable (nu.valid = true ∧ ValidTitles rest))
  | (Op.get _, _) :: rest => instDecidableValidTitles rest
  | (Op.delete _, _) :: rest => instDecidableValidTitles rest
  | (Op.listAll, _) :: rest => instDecidableValidTitles rest

/-- Every id generated by a create along the trace is absent from the
store at the moment of that create (what the 122 random uuid bits make
overwhelmingly likely; collisions are the one probabilistic caveat). -/
def FreshIds (s : Store) : List (Op × Nat) → Prop
  | [] => True
  | (op, now) :: rest =>
    (match op with
     | Op.create _ r => storeGet s (generate_note_id r) = none
     | _ => True) ∧ FreshIds (applyOp s op now) rest

instance : ∀ (s : Store) (tr : List (Op × Nat)), Decidable (FreshIds s tr)
  | _, [] => isTrue trivial
  | s, (op, now) :: rest =>
    have : Decidable (FreshIds (applyOp s op now) rest) :=
      instDecidableFreshIds (applyOp s op now) rest
    match op with
    | Op.create nc r =>
      inferInstanceAs
        (Decidable (storeGet s (generate_note_id r) = none ∧ FreshIds (applyOp s (Op.create nc r) now) rest))
    | Op.get i =>
      inferInstanceAs (Decidable (True ∧ FreshIds (applyOp s (Op.get i) now) rest))
    | Op.update i nu =>
      inferInstanceAs (Decidable (True ∧ FreshIds (applyOp s (Op.update i nu) now) rest))
    | Op.delete i =>
      inferInstanceAs (Decidable (True ∧ FreshIds (applyOp s (Op.delete i) now) rest))
    | Op.listAll =>
      inferInstanceAs (Decidable (True ∧ FreshIds (applyOp s Op.listAll now) rest))

/-- Ids handed out by the creates of a trace. -/
def createdIds : List (Op × Nat) → List String
  | [] => []
  | (Op.create _ r, _) :: rest => generate_note_id r :: createdIds rest
  | _ :: rest => createdIds rest

/-- Number of create operations in a trace. -/
def numCreates : List (Op × Nat) → Nat
  | [] => 0
  | (Op.create _ _, _) :: rest => numCreates rest + 1
  | _ :: rest => numCreates rest

/-- Number of deletes along a trace that actually removed an entry. -/
def numSuccDeletes (s : Store) : List (Op × Nat) → Nat
  | [] => 0
  | (op, now) :: rest =>
    (match op with
     | Op.delete note_id => if (delete_note s note_id).1 then 1 else 0
     | _ => 0) + numSuccDeletes (applyOp s op now) rest

/-- The clock value after a trace (`t` if the trace is empty). -/
def endTime (t : Nat) : List (Op × Nat) → Nat
  | [] => t
  | (_, now) :: rest => endTime now rest

/-- Timestamp invariant: every stored note has `created_at ≤ updated_at`
and no stored timestamp is ahead of the clock `t`. -/
def TimeInv (s : Store) (t : Nat) : Prop :=
  ∀ p ∈ s, p.2.created_at ≤ p.2.updated_at ∧ p.2.updated_at ≤ t

/-- Title invariant: every stored note has a non-empty title. -/
def TitleInv (s : Store) : Prop :=
  ∀ p ∈ s, p.2.title ≠ ""

/-- A small concrete store used by the witnesses. -/
def demoStore : Store :=
  [("a", { id := "a", title := "T", content := "C", created_at := 1, updated_at := 2 }),
   ("b", { id := "b", title := "U", content := "D", created_at := 3, updated_at := 3 })]

/-- A small concrete trace used by the witnesses: one create, one update,
one delete of an unknown id. -/
def demoTrace : List (Op × Nat) :=
  [(Op.create { title := "T", content := "C" } 0, 1),
   (Op.update (generate_note_id 0) { title := some "V", content := none }, 2),
   (Op.delete "missing", 3)]

/-! ### Lemmas about the dict model -/

theorem storeGet_storeSet_self (s : Store) (k : String) (v : Note) :
    storeGet (storeSet s k v) k = some v := by
  induction s with
  | nil => simp [storeSet, storeGet]
  | cons p rest ih =>
    by_cases h : p.1 = k <;> simp [storeSet, storeGet, h, ih]

theorem storeGet_storeSet_ne (s : Store) (k k' : String) (v : Note)
    (h : k' ≠ k) : storeGet (storeSet s k v) k' = storeGet s k' := by
  have h' : ¬ k = k' := fun e => h e.symm
  induction s with
  | nil => simp [storeSet, storeGet, h']
  | cons p rest ih =>
    by_cases hp : p.1 = k
    · simp [storeSet, storeGet, hp, h']
    · simp only [storeSet, hp, if_false, storeGet]
      by_cases hq : p.1 = k' <;> simp [hq, ih]

theorem storeGet_storeDel_ne (s : Store) (k k' : String)
    (h : k' ≠ k) : storeGet (storeDel s k) k' = storeGet s k' := by
  have h' : ¬ k = k' := fun e => h e.symm
  induction s with
  | nil => simp [storeDel]
  | cons p rest ih =>
    by_cases hp : p.1 = k
    · simp [storeDel, storeGet, hp, h']
    · simp only [storeDel, hp, if_false, storeGet]
      by_cases hq : p.1 = k' <;> simp [hq, ih]

theorem storeGet_eq_none_iff (s : Store) (k : String) :
    storeGet s k = none ↔ k ∉ s.map Prod.fst := by
  induction s with
  | nil => simp [storeGet]
  | cons p rest ih =>
    rw [storeGet, List.map_cons, List.mem_cons, not_or]
    by_cases h : p.1 = k
    · subst h
      simp
    · rw [if_neg h, ih]
      exact ⟨fun hm => ⟨fun e => h e.symm, hm⟩, fun hm => hm.2⟩

theorem storeGet_storeDel_self (s : Store) (k : String) (hwf : StoreWF s) :
    storeGet (storeDel s k) k = none := by
  induction s with
  | nil => simp [storeDel, storeGet]
  | cons p rest ih =>
    rw [StoreWF, List.map_cons, List.nodup_cons] at hwf
    by_cases h : p.1 = k
    · simp only [storeDel, h, if_true]
      exact (storeGet_eq_none_iff rest k).mpr (h ▸ hwf.1)
    · simp [storeDel, storeGet, h, ih hwf.2]

theorem mem_keys_storeSet (s : Store) (k k' : String) (v : Note)
    (h : k' ∈ (storeSet s k v).map Prod.fst) :
    k' = k ∨ k' ∈ s.map Prod.fst := by
  induction s with
  | nil => simpa [storeSet] using h
  | cons p rest ih =>
    by_cases hp : p.1 = k
    · simp only [storeSet, hp, if_true, List.map_cons, List.mem_cons] at h
      rcases h with h | h
      · exact Or.inl h
      · exact Or.inr (List.mem_cons_of_mem _ h)
    · simp only [storeSet, hp, if_false, List.map_cons, List.mem_cons] at h
      rcases h with h | h
      · exact Or.inr (h ▸ List.mem_cons_self _ _)
      · rcases ih h with h | h
        · exact Or.inl h
        · exact Or.inr (List.mem_cons_of_mem _ h)

theorem mem_keys_storeDel (s : Store) (k k' : String)
    (h : k' ∈ (storeDel s k).map Prod.fst) : k' ∈ s.map Prod.fst := by
  induction s with
  | nil => simp [storeDel] at h
  | cons p rest ih =>
    by_cases hp : p.1 = k
    · simp only [storeDel, hp, if_true] at h
      exact List.mem_cons_of_mem _ h
    · simp only [storeDel, hp, if_false, List.map_cons, List.mem_cons] at h
      rcases h with h | h
      · exact h ▸ List.mem_cons_self _ _
      · exact List.mem_cons_of_mem _ (ih h)

theorem storeWF_storeSet (s : Store) (k : String) (v : Note)
    (hwf : StoreWF s) : StoreWF (storeSet s k v) := by
  induction s with
  | nil => simp [storeSet, StoreWF]
  | cons p rest ih =>
    rw [StoreWF, List.map_cons, List.nodup_cons] at hwf
    by_cases hp : p.1 = k
    · rw [storeSet, if_pos hp, StoreWF, List.map_cons, List.nodup_cons]
      exact ⟨hp ▸ hwf.1, hwf.2⟩
    · rw [storeSet, if_neg hp, StoreWF, List.map_cons, List.nodup_cons]
      refine ⟨fun hmem => ?_, ih hwf.2⟩
      rcases mem_keys_storeSet rest k p.1 v hmem with h | h
      · exact hp h
      · exact hwf.1 h

theorem storeWF_storeDel (s : Store) (k : String)
    (hwf : StoreWF s) : StoreWF (storeDel s k) := by
  induction s with
  | nil => simp [storeDel, StoreWF]
  | cons p rest ih =>
    rw [StoreWF, List.map_cons, List.nodup_cons] at hwf
    by_cases hp : p.1 = k
    · rw [storeDel, if_pos hp]
      exact hwf.2
    · rw [storeDel, if_neg hp, StoreWF, List.map_cons, List.nodup_cons]
      exact ⟨fun hmem => hwf.1 (mem_keys_storeDel rest k p.1 hmem), ih hwf.2⟩

theorem length_storeSet_absent (s : Store) (k : String) (v : Note)
    (h : storeGet s k = none) : (storeSet s k v).length = s.length + 1 := by
  induction s with
  | nil => simp [storeSet]
  | cons p rest ih =>
    by_cases hp : p.1 = k
    · simp [storeGet, hp] at h
    · simp only [storeGet, hp, if_false] at h
      simp [storeSet, hp, ih h]

theorem length_storeSet_present (s : Store) (k : String) (v v' : Note)
    (h : storeGet s k = some v') : (storeSet s k v).length = s.length := by
  induction s with
  | nil => simp [storeGet] at h
  | cons p rest ih =>
    by_cases hp : p.1 = k
    · simp [storeSet, hp]
    · simp only [storeGet, hp, if_false] at h
      simp [storeSet, hp, ih h]

theorem length_storeDel_present (s : Store) (k : String) (v : Note)
    (h : storeGet s k = some v) : (storeDel s k).length + 1 = s.length := by
  induction s with
  | nil => simp [storeGet] at h
  | cons p rest ih =>
    by_cases hp : p.1 = k
    · simp [storeDel, hp]
    · simp only [storeGet, hp, if_false] at h
      simp [storeDel, hp, ih h]

theorem storeGet_mem (s : Store) (k : String) (v : Note)
    (h : storeGet s k = some v) : (k, v) ∈ s := by
  induction s with
  | nil => simp [storeGet] at h
  | cons p rest ih =>
    by_cases hp : p.1 = k
    · rw [storeGet, if_pos hp] at h
      obtain ⟨k0, v0⟩ := p
      cases h
      exact hp ▸ List.mem_cons_self _ _
    · rw [storeGet, if_neg hp] at h
      exact List.mem_cons_of_mem _ (ih h)

theorem mem_storeSet (s : Store) (k : String) (v : Note) (q : String × Note)
    (h : q ∈ storeSet s k v) : q = (k, v) ∨ q ∈ s := by
  induction s with
  | nil => simpa [storeSet] using h
  | cons p rest ih =>
    by_cases hp : p.1 = k
    · rw [storeSet, if_pos hp] at h
      rcases List.mem_cons.mp h with h | h
      · exact Or.inl h
      · exact Or.inr (List.mem_cons_of_mem _ h)
    · rw [storeSet, if_neg hp] at h
      rcases List.mem_cons.mp h with h | h
      · exact Or.inr (h ▸ List.mem_cons_self _ _)
      · rcases ih h with h | h
        · exact Or.inl h
        · exact Or.inr (List.mem_cons_of_mem _ h)

theorem mem_storeDel (s : Store) (k : String) (q : String × Note)
    (h : q ∈ storeDel s k) : q ∈ s := by
  induction s with
  | nil => simp [storeDel] at h
  | cons p rest ih =>
    by_cases hp : p.1 = k
    · rw [storeDel, if_pos hp] at h
      exact List.mem_cons_of_mem _ h
    · rw [storeDel, if_neg hp] at h
      rcases List.mem_cons.mp h with h | h
      · exact h ▸ List.mem_cons_self _ _
      · exact List.mem_cons_of_mem _ (ih h)

/-! ### Lemmas about uuid strings -/

theorem hexDigits_length : ∀ (w n : Nat), (hexDigits w n).length = w
  | 0, _ => rfl
  | w + 1, n => by
    rw [hexDigits, List.length_append, hexDigits_length w]
    rfl

theorem uuidChars_length (n : Nat) : (uuidChars n).length = 36 := by
  simp [uuidChars, List.length_take, List.length_drop, hexDigits_length]

theorem generate_note_id_ne_empty (r : Nat) : generate_note_id r ≠ "" := by
  intro h
  have hl := congrArg String.length h
  rw [generate_note_id] at hl
  have : (uuidChars (uuid4Int r)).length = 0 := hl
  rw [uuidChars_length] at this
  exact absurd this (by decide)

/-! ### Invariant preservation along traces -/

theorem timeInv_mono (s : Store) (t t' : Nat) (h : t ≤ t')
    (hinv : TimeInv s t) : TimeInv s t' :=
  fun p hp => ⟨(hinv p hp).1, le_trans (hinv p hp).2 h⟩

theorem timeInv_applyOp (s : Store) (op : Op) (t now : Nat)
    (hinv : TimeInv s t) (hle : t ≤ now) : TimeInv (applyOp s op now) now := by
  have hinv' : TimeInv s now := timeInv_mono s t now hle hinv
  cases op with
  | create nc r =>
    intro p hp
    rcases mem_storeSet _ _ _ _ hp with h | h
    · subst h
      exact ⟨le_refl now, le_refl now⟩
    · exact hinv' p h
  | get note_id => exact hinv'
  | update note_id nu =>
    cases hget : storeGet s note_id with
    | none =>
      intro p hp
      rw [applyOp, update_note, hget] at hp
      exact hinv' p hp
    | some old =>
      intro p hp
      rw [applyOp, update_note, hget] at hp
      rcases mem_storeSet _ _ _ _ hp with h | h
      · subst h
        have hmem := storeGet_mem s note_id old hget
        have hold := hinv' _ hmem
        exact ⟨le_trans hold.1 hold.2, le_refl now⟩
      · exact hinv' p h
  | delete note_id =>
    cases hget : storeGet s note_id with
    | none =>
      intro p hp
      rw [applyOp, delete_note, hget] at hp
      exact hinv' p hp
    | some old =>
      intro p hp
      rw [applyOp, delete_note, hget] at hp
      exact hinv' p (mem_storeDel _ _ _ hp)
  | listAll => exact hinv'

theorem timeInv_run : ∀ (tr : List (Op × Nat)) (s : Store) (t : Nat),
    TimeInv s t → TimesFrom t tr → TimeInv (run s tr) (endTime t tr)
  | [], _, _, hinv, _ => hinv
  | (op, now) :: rest, s, t, hinv, htf =>
    timeInv_run rest (applyOp s op now) now
      (timeInv_applyOp s op t now hinv htf.1) htf.2

theorem titleInv_applyOp (s : Store) (op : Op) (now : Nat)
    (hinv : TitleInv s)
    (hop : match op with
           | Op.create nc _ => nc.valid = true
           | Op.update _ nu => nu.valid = true
           | _ => True) :
    TitleInv (applyOp s op now) := by
  cases op with
  | create nc r =>
    intro p hp
    rcases mem_storeSet _ _ _ _ hp with h | h
    · subst h
      simpa [NoteCreate.valid] using hop
    · exact hinv p h
  | get note_id => exact hinv
  | update note_id nu =>
    obtain ⟨nut, nuc⟩ := nu
    cases hget : storeGet s note_id with
    | none =>
      intro p hp
      rw [applyOp, update_note, hget] at hp
      exact hinv p hp
    | some old =>
      intro p hp
      rw [applyOp, update_note, hget] at hp
      rcases mem_storeSet _ _ _ _ hp with h | h
      · subst h
        cases nut with
        | none =>
          have := hinv _ (storeGet_mem s note_id old hget)
          simpa using this
        | some tt =>
          have htt : tt ≠ "" := of_decide_eq_true hop
          simpa using htt
      · exact hinv p h
  | delete note_id =>
    cases hget : storeGet s note_id with
    | none =>
      intro p hp
      rw [applyOp, delete_note, hget] at hp
      exact hinv p hp
    | some old =>
      intro p hp
      rw [applyOp, delete_note, hget] at hp
      exact hinv p (mem_storeDel _ _ _ hp)
  | listAll => exact hinv

theorem titleInv_run : ∀ (tr : List (Op × Nat)) (s : Store),
    TitleInv s → ValidTitles tr → TitleInv (run s tr)
  | [], _, hinv, _ => hinv
  | (op, now) :: rest, s, hinv, hvt => by
    cases op with
    | create nc r =>
      exact titleInv_run rest _ (titleInv_applyOp s (Op.create nc r) now hinv hvt.1) hvt.2
    | get note_id =>
      exact titleInv_run rest _ (titleInv_applyOp s (Op.get note_id) now hinv trivial) hvt
    | update note_id nu =>
      exact titleInv_run rest _ (titleInv_applyOp s (Op.update note_id nu) now hinv hvt.1) hvt.2
    | delete note_id =>
      exact titleInv_run rest _ (titleInv_applyOp s (Op.delete note_id) now hinv trivial) hvt
    | listAll =>
      exact titleInv_run rest _ (titleInv_applyOp s Op.listAll now hinv trivial) hvt

theorem keys_applyOp (s : Store) (op : Op) (now : Nat) (k : String)
    (h : k ∈ (applyOp s op now).map Prod.fst) :
    k ∈ s.map Prod.fst ∨ (∃ nc r, op = Op.create nc r ∧ k = generate_note_id r) := by
  cases op with
  | create nc r =>
    rcases mem_keys_storeSet _ _ _ _ h with h | h
    · exact Or.inr ⟨nc, r, rfl, h⟩
    · exact Or.inl h
  | get note_id => exact Or.inl h
  | update note_id nu =>
    cases hget : storeGet s note_id with
    | none =>
      rw [applyOp, update_note, hget] at h
      exact Or.inl h
    | some old =>
      rw [applyOp, update_note, hget] at h
      rcases mem_keys_storeSet _ _ _ _ h with h | h
      · subst h
        exact Or.inl (List.mem_map_of_mem Prod.fst (storeGet_mem s k old hget))
      · exact Or.inl h
  | delete note_id =>
    cases hget : storeGet s note_id with
    | none =>
      rw [applyOp, delete_note, hget] at h
      exact Or.inl h
    | some old =>
      rw [applyOp, delete_note, hget] at h
      exact Or.inl (mem_keys_storeDel _ _ _ h)
  | listAll => exact Or.inl h

theorem mem_createdIds_cons (op : Op) (now : Nat) (rest : List (Op × Nat))
    (k : String) (h : k ∈ createdIds rest) : k ∈ createdIds ((op, now) :: rest) := by
  cases op with
  | create nc r => exact List.mem_cons_of_mem _ h
  | get note_id => exact h
  | update note_id nu => exact h
  | delete note_id => exact h
  | listAll => exact h

theorem keys_run_subset : ∀ (tr : List (Op × Nat)) (s : Store) (k : String),
    k ∈ (run s tr).map Prod.fst → k ∈ s.map Prod.fst ∨ k ∈ createdIds tr
  | [], _, _, h => Or.inl h
  | (op, now) :: rest, s, k, h => by
    rcases keys_run_subset rest (applyOp s op now) k h with h1 | h1
    · rcases keys_applyOp s op now k h1 with h2 | ⟨nc, r, hop, hk⟩
      · exact Or.inl h2
      · subst hop
        subst hk
        exact Or.inr (List.mem_cons_self _ _)
    · exact Or.inr (mem_createdIds_cons op now rest k h1)

theorem length_run : ∀ (tr : List (Op × Nat)) (s : Store), FreshIds s tr →
    (run s tr).length + numSuccDeletes s tr = s.length + numCreates tr
  | [], s, _ => by simp [run, numSuccDeletes, numCreates]
  | (op, now) :: rest, s, h => by
    have ih := length_run rest (applyOp s op now) h.2
    cases op with
    | create nc r =>
      have h1 : storeGet s (generate_note_id r) = none := h.1
      have hlen : (applyOp s (Op.create nc r) now).length = s.length + 1 :=
        length_storeSet_absent s (generate_note_id r) _ h1
      simp only [run, numSuccDeletes, numCreates] at ih ⊢
      omega
    | get note_id =>
      simp only [run, numSuccDeletes, numCreates, applyOp] at ih ⊢
      omega
    | update note_id nu =>
      have hlen : (applyOp s (Op.update note_id nu) now).length = s.length := by
        cases hget : storeGet s note_id with
        | none => rw [applyOp, update_note, hget]
        | some old =>
          rw [applyOp, update_note, hget]
          exact length_storeSet_present s note_id _ old hget
      simp only [run, numSuccDeletes, numCreates] at ih ⊢
      omega
    | delete note_id =>
      cases hget : storeGet s note_id with
      | none =>
        have hres : delete_note s note_id = (false, s) := by
          rw [delete_note, hget]
        simp [run, numSuccDeletes, numCreates, applyOp, hres] at ih ⊢
        omega
      | some old =>
        have hres : delete_note s note_id = (true, storeDel s note_id) := by
          rw [delete_note, hget]
        have hlen : (storeDel s note_id).length + 1 = s.length :=
          length_storeDel_present s note_id old hget
        simp [run, numSuccDeletes, numCreates, applyOp, hres] at ih ⊢
        omega
    | listAll =>
      simp only [run, numSuccDeletes, numCreates, applyOp] at ih ⊢
      omega

/-! ### The claims -/

/-- C1: for every title and content with the title non-empty,
`create_note` returns a note with a non-empty id, the given title and
content, equal creation and update timestamps, and `get_note` on the
resulting store at that id returns exactly the returned note. -/
theorem C1_create_note_spec (s : Store) (title content : String) (now r : Nat)
    (_h : title ≠ "") :
    (create_note s ⟨title, content⟩ now r).1.id ≠ "" ∧
    (create_note s ⟨title, content⟩ now r).1.title = title ∧
    (create_note s ⟨title, content⟩ now r).1.content = content ∧
    (create_note s ⟨title, content⟩ now r).1.created_at
      = (create_note s ⟨title, content⟩ now r).1.updated_at ∧
    get_note (create_note s ⟨title, content⟩ now r).2
        (create_note s ⟨title, content⟩ now r).1.id
      = some (create_note s ⟨title, content⟩ now r).1 :=
  ⟨generate_note_id_ne_empty r, rfl, rfl, rfl,
   storeGet_storeSet_self s (generate_note_id r) _⟩

/-- Witness for C1 at a concrete input. -/
theorem C1_create_note_spec_witness :
    ("Groceries" : String) ≠ "" ∧
    ((create_note [] ⟨"Groceries", "Milk"⟩ 7 0).1.id ≠ "" ∧
     (create_note [] ⟨"Groceries", "Milk"⟩ 7 0).1.title = "Groceries" ∧
     (create_note [] ⟨"Groceries", "Milk"⟩ 7 0).1.content = "Milk" ∧
     (create_note [] ⟨"Groceries", "Milk"⟩ 7 0).1.created_at
       = (create_note [] ⟨"Groceries", "Milk"⟩ 7 0).1.updated_at ∧
     get_note (create_note [] ⟨"Groceries", "Milk"⟩ 7 0).2
         (create_note [] ⟨"Groceries", "Milk"⟩ 7 0).1.id
       = some (create_note [] ⟨"Groceries", "Milk"⟩ 7 0).1) :=
  ⟨by decide, C1_create_note_spec [] "Groceries" "Milk" 7 0 (by decide)⟩

/-- C2: updating a present id builds the new note from the prior one —
provided fields replace, unset fields are kept, `updated_at` becomes the
current time (hence does not decrease under a monotone clock), `id` and
`created_at` are preserved — and stores exactly that note under the id. -/
theorem C2_update_note_spec (s : Store) (note_id : String) (nu : NoteUpdate)
    (now : Nat) (old : Note) (hold : get_note s note_id = some old) :
    ∃ upd : Note,
      (update_note s note_id nu now).1 = some upd ∧
      get_note (update_note s note_id nu now).2 note_id = some upd ∧
      (∀ t, nu.title = some t → upd.title = t) ∧
      (nu.title = none → upd.title = old.title) ∧
      (∀ c, nu.content = some c → upd.content = c) ∧
      (nu.content = none → upd.content = old.content) ∧
      upd.id = old.id ∧
      upd.created_at = old.created_at ∧
      upd.updated_at = now ∧
      (old.updated_at ≤ now → old.updated_at ≤ upd.updated_at) := by
  have hold' : storeGet s note_id = some old := hold
  refine ⟨{ old with
            title := nu.title.getD old.title,
            content := nu.content.getD old.content,
            updated_at := now }, ?_, ?_, ?_, ?_, ?_, ?_, rfl, rfl, rfl, ?_⟩
  · rw [update_note, hold']
  · rw [update_note, hold']
    exact storeGet_storeSet_self s note_id _
  · intro t ht
    simp [ht]
  · intro ht
    simp [ht]
  · intro c hc
    simp [hc]
  · intro hc
    simp [hc]
  · intro h
    exact h

/-- Witness for C2 at a concrete input. -/
theorem C2_update_note_spec_witness :
    get_note demoStore "a"
      = some { id := "a", title := "T", content := "C", created_at := 1, updated_at := 2 } ∧
    (∃ upd : Note,
      (update_note demoStore "a" ⟨some "X", none⟩ 9).1 = some upd ∧
      get_note (update_note demoStore "a" ⟨some "X", none⟩ 9).2 "a" = some upd ∧
      (∀ t, (⟨some "X", none⟩ : NoteUpdate).title = some t → upd.title = t) ∧
      ((⟨some "X", none⟩ : NoteUpdate).title = none → upd.title = "T") ∧
      (∀ c, (⟨some "X", none⟩ : NoteUpdate).content = some c → upd.content = c) ∧
      ((⟨some "X", none⟩ : NoteUpdate).content = none → upd.content = "C") ∧
      upd.id = "a" ∧
      upd.created_at = 1 ∧
      upd.updated_at = 9 ∧
      ((2 : Nat) ≤ 9 → (2 : Nat) ≤ upd.updated_at)) :=
  ⟨by decide,
   C2_update_note_spec demoStore "a" ⟨some "X", none⟩ 9
     { id := "a", title := "T", content := "C", created_at := 1, updated_at := 2 }
     (by decide)⟩

/-- C4: `delete_note` returns true exactly when the id was present, the
id is absent afterwards, deleting an absent id leaves the store
unchanged, and a second delete of the same id returns false. -/
theorem C4_delete_note_spec (s : Store) (note_id : String) (hwf : StoreWF s) :
    ((delete_note s note_id).1 = true ↔ (get_note s note_id).isSome = true) ∧
    get_note (delete_note s note_id).2 note_id = none ∧
    (get_note s note_id = none → (delete_note s note_id).2 = s) ∧
    (delete_note (delete_note s note_id).2 note_id).1 = false := by
  cases hget : storeGet s note_id with
  | none =>
    have hres : delete_note s note_id = (false, s) := by rw [delete_note, hget]
    have hget' : get_note s note_id = none := hget
    refine ⟨?_, ?_, ?_, ?_⟩
    · rw [hres, hget']
      simp
    · rw [hres]
      exact hget
    · intro _
      rw [hres]
    · rw [hres]
      show (delete_note s note_id).1 = false
      rw [hres]
  | some v =>
    have hres : delete_note s note_id = (true, storeDel s note_id) := by
      rw [delete_note, hget]
    have habsent : storeGet (storeDel s note_id) note_id = none :=
      storeGet_storeDel_self s note_id hwf
    have hget' : get_note s note_id = some v := hget
    refine ⟨?_, ?_, ?_, ?_⟩
    · rw [hres, hget']
      simp
    · rw [hres]
      exact habsent
    · intro hnone
      rw [show get_note s note_id = storeGet s note_id from rfl, hget] at hnone
      cases hnone
    · rw [hres]
      show (delete_note (storeDel s note_id) note_id).1 = false
      rw [delete_note, habsent]

/-- Witness for C4 at a concrete input. -/
theorem C4_delete_note_spec_witness :
    StoreWF demoStore ∧
    (((delete_note demoStore "a").1 = true ↔ (get_note demoStore "a").isSome = true) ∧
     get_note (delete_note demoStore "a").2 "a" = none ∧
     (get_note demoStore "a" = none → (delete_note demoStore "a").2 = demoStore) ∧
     (delete_note (delete_note demoStore "a").2 "a").1 = false) :=
  ⟨by decide, C4_delete_note_spec demoStore "a" (by decide)⟩

/-- C5: updating an absent id returns the absence marker and leaves the
store completely unchanged. -/
theorem C5_update_note_absent (s : Store) (note_id : String) (nu : NoteUpdate)
    (now : Nat) (h : get_note s note_id = none) :
    (update_note s note_id nu now).1 = none ∧
    (update_note s note_id nu now).2 = s := by
  have h' : storeGet s note_id = none := h
  constructor
  · rw [update_note, h']
  · rw [update_note, h']

/-- Witness for C5 at a concrete input. -/
theorem C5_update_note_absent_witness :
    get_note demoStore "zz" = none ∧
    ((update_note demoStore "zz" ⟨some "X", some "Y"⟩ 9).1 = none ∧
     (update_note demoStore "zz" ⟨some "X", some "Y"⟩ 9).2 = demoStore) :=
  ⟨by decide, C5_update_note_absent demoStore "zz" ⟨some "X", some "Y"⟩ 9 (by decide)⟩

/-- C3: in every store reachable from the empty store by repository
operations under a monotone clock, every stored note satisfies
`created_at ≤ updated_at`. -/
theorem C3_created_le_updated (tr : List (Op × Nat)) (h : TimesFrom 0 tr)
    (p : String × Note) (hp : p ∈ run [] tr) :
    p.2.created_at ≤ p.2.updated_at := by
  have hinv : TimeInv ([] : Store) 0 := fun q hq => absurd hq (List.not_mem_nil q)
  exact (timeInv_run tr [] 0 hinv h p hp).1

/-- Witness for C3 on a concrete trace. -/
theorem C3_created_le_updated_witness :
    TimesFrom 0 demoTrace ∧
    ((generate_note_id 0,
        ({ id := generate_note_id 0, title := "V", content := "C",
           created_at := 1, updated_at := 2 } : Note)) : String × Note).2.created_at
      ≤ ((generate_note_id 0,
        ({ id := generate_note_id 0, title := "V", content := "C",
           created_at := 1, updated_at := 2 } : Note)) : String × Note).2.updated_at :=
  ⟨by decide,
   C3_created_le_updated demoTrace (by decide)
     (generate_note_id 0,
       { id := generate_note_id 0, title := "V", content := "C",
         created_at := 1, updated_at := 2 })
     (by decide)⟩

/-- C6: `list_notes` returns exactly the notes currently in the mapping,
and along any trace with fresh generated ids the number of stored notes
equals the prior count plus the creates minus the successful deletes. -/
theorem C6_list_notes_spec (s : Store) (tr : List (Op × Nat))
    (h : FreshIds s tr) :
    (∀ n : Note, n ∈ list_notes (run s tr) ↔ ∃ k, (k, n) ∈ run s tr) ∧
    (list_notes (run s tr)).length + numSuccDeletes s tr
      = (list_notes s).length + numCreates tr := by
  constructor
  · intro n
    rw [list_notes, List.mem_map]
    constructor
    · rintro ⟨⟨k, v⟩, hm, he⟩
      cases he
      exact ⟨k, hm⟩
    · rintro ⟨k, hm⟩
      exact ⟨(k, n), hm, rfl⟩
  · have hlen := length_run tr s h
    simpa [list_notes] using hlen

/-- Witness for C6 on a concrete trace. -/
theorem C6_list_notes_spec_witness :
    FreshIds [] demoTrace ∧
    (({ id := generate_note_id 0, title := "V", content := "C",
        created_at := 1, updated_at := 2 } : Note) ∈ list_notes (run [] demoTrace)
      ↔ ∃ k, (k, ({ id := generate_note_id 0, title := "V", content := "C",
                    created_at := 1, updated_at := 2 } : Note)) ∈ run [] demoTrace) ∧
    (list_notes (run [] demoTrace)).length + numSuccDeletes [] demoTrace
      = (list_notes ([] : Store)).length + numCreates demoTrace :=
  ⟨by decide,
   (C6_list_notes_spec [] demoTrace (by decide)).1
     { id := generate_note_id 0, title := "V", content := "C",
       created_at := 1, updated_at := 2 },
   (C6_list_notes_spec [] demoTrace (by decide)).2⟩

/-- C7: when every create and every update along the trace passes the
boundary-layer title validation, every stored note has a non-empty
title. -/
theorem C7_titles_nonempty (tr : List (Op × Nat)) (h : ValidTitles tr)
    (p : String × Note) (hp : p ∈ run [] tr) : p.2.title ≠ "" :=
  titleInv_run tr [] (fun q hq => absurd hq (List.not_mem_nil q)) h p hp

/-- Witness for C7 on a concrete trace. -/
theorem C7_titles_nonempty_witness :
    ValidTitles demoTrace ∧
    ((generate_note_id 0,
        ({ id := generate_note_id 0, title := "V", content := "C",
           created_at := 1, updated_at := 2 } : Note)) : String × Note).2.title ≠ "" :=
  ⟨by decide,
   C7_titles_nonempty demoTrace (by decide)
     (generate_note_id 0,
       { id := generate_note_id 0, title := "V", content := "C",
         created_at := 1, updated_at := 2 })
     (by decide)⟩

/-- C8: an id never handed out by a create is absent in every reachable
store: `get_note` and `update_note` return the absence marker and
`delete_note` returns false. -/
theorem C8_never_created_absent (tr : List (Op × Nat)) (note_id : String)
    (h : note_id ∉ createdIds tr) (nu : NoteUpdate) (now : Nat) :
    get_note (run [] tr) note_id = none ∧
    (update_note (run [] tr) note_id nu now).1 = none ∧
    (delete_note (run [] tr) note_id).1 = false := by
  have hget : storeGet (run [] tr) note_id = none := by
    rw [storeGet_eq_none_iff]
    intro hmem
    rcases keys_run_subset tr [] note_id hmem with h1 | h1
    · simp at h1
    · exact h h1
  refine ⟨hget, ?_, ?_⟩
  · rw [update_note, hget]
  · rw [delete_note, hget]

/-- Witness for C8 on a concrete trace. -/
theorem C8_never_created_absent_witness :
    "nope" ∉ createdIds demoTrace ∧
    (get_note (run [] demoTrace) "nope" = none ∧
     (update_note (run [] demoTrace) "nope" ⟨some "Q", none⟩ 9).1 = none ∧
     (delete_note (run [] demoTrace) "nope").1 = false) :=
  ⟨by decide, C8_never_created_absent demoTrace "nope" (by decide) ⟨some "Q", none⟩ 9⟩

/-- C9: the DELETE handler answers the 404 error with detail
"Note not found" exactly when the id is absent (leaving the store
unchanged then), and otherwise answers 204 and removes the note. -/
theorem C9_delete_endpoint_spec (s : Store) (note_id : String)
    (hwf : StoreWF s) :
    ((delete_note_endpoint s note_id).1
        = HandlerResult.httpError 404 "Note not found"
      ↔ get_note s note_id = none) ∧
    (get_note s note_id = none → (delete_note_endpoint s note_id).2 = s) ∧
    ((get_note s note_id).isSome = true →
      (delete_note_endpoint s note_id).1 = HandlerResult.ok 204 ∧
      get_note (delete_note_endpoint s note_id).2 note_id = none) := by
  cases hget : storeGet s note_id with
  | none =>
    have hres : delete_note s note_id = (false, s) := by rw [delete_note, hget]
    have hget' : get_note s note_id = none := hget
    refine ⟨?_, fun _ => ?_, fun hs => ?_⟩
    · simp [delete_note_endpoint, hres, hget']
    · simp [delete_note_endpoint, hres]
    · rw [hget'] at hs
      simp at hs
  | some v =>
    have hres : delete_note s note_id = (true, storeDel s note_id) := by
      rw [delete_note, hget]
    have hget' : get_note s note_id = some v := hget
    have habsent : storeGet (storeDel s note_id) note_id = none :=
      storeGet_storeDel_self s note_id hwf
    refine ⟨?_, fun hn => ?_, fun _ => ⟨?_, ?_⟩⟩
    · simp [delete_note_endpoint, hres, hget']
    · rw [hget'] at hn
      cases hn
    · simp [delete_note_endpoint, hres]
    · simp only [delete_note_endpoint, hres]
      exact habsent

/-- Witness for C9 at a concrete input. -/
theorem C9_delete_endpoint_spec_witness :
    StoreWF demoStore ∧
    (((delete_note_endpoint demoStore "a").1
        = HandlerResult.httpError 404 "Note not found"
      ↔ get_note demoStore "a" = none) ∧
     (get_note demoStore "a" = none → (delete_note_endpoint demoStore "a").2 = demoStore) ∧
     ((get_note demoStore "a").isSome = true →
       (delete_note_endpoint demoStore "a").1 = HandlerResult.ok 204 ∧
       get_note (delete_note_endpoint demoStore "a").2 "a" = none)) :=
  ⟨by decide, C9_delete_endpoint_spec demoStore "a" (by decide)⟩

/-- C10 (frame property): each operation touches at most its own entry —
create leaves every other key's lookup unchanged, update and delete
leave every key other than their argument unchanged, and get and list
do not change the store at all. -/
theorem C10_frame_spec (s : Store) (k note_id : String) (nc : NoteCreate)
    (nu : NoteUpdate) (now r : Nat) :
    (k ≠ (create_note s nc now r).1.id →
      get_note (create_note s nc now r).2 k = get_note s k) ∧
    (k ≠ note_id → get_note (update_note s note_id nu now).2 k = get_note s k) ∧
    (k ≠ note_id → get_note (delete_note s note_id).2 k = get_note s k) ∧
    applyOp s (Op.get note_id) now = s ∧
    applyOp s Op.listAll now = s := by
  refine ⟨fun hk => ?_, fun hk => ?_, fun hk => ?_, rfl, rfl⟩
  · exact storeGet_storeSet_ne s (generate_note_id r) k _ hk
  · cases hget : storeGet s note_id with
    | none => rw [update_note, hget]
    | some old =>
      rw [update_note, hget]
      exact storeGet_storeSet_ne s note_id k _ hk
  · cases hget : storeGet s note_id with
    | none => rw [delete_note, hget]
    | some old =>
      rw [delete_note, hget]
      exact storeGet_storeDel_ne s note_id k hk

/-- Witness for C10 at a concrete input. -/
theorem C10_frame_spec_witness :
    get_note (create_note demoStore ⟨"T2", "C2"⟩ 6 0).2 "zz" = get_note demoStore "zz" ∧
    get_note (update_note demoStore "a" ⟨none, some "E"⟩ 6).2 "zz" = get_note demoStore "zz" ∧
    get_note (delete_note demoStore "a").2 "zz" = get_note demoStore "zz" ∧
    applyOp demoStore (Op.get "a") 6 = demoStore ∧
    applyOp demoStore Op.listAll 6 = demoStore :=
  ⟨(C10_frame_spec demoStore "zz" "a" ⟨"T2", "C2"⟩ ⟨none, some "E"⟩ 6 0).1 (by decide),
   (C10_frame_spec demoStore "zz" "a" ⟨"T2", "C2"⟩ ⟨none, some "E"⟩ 6 0).2.1 (by decide),
   (C10_frame_spec demoStore "zz" "a" ⟨"T2", "C2"⟩ ⟨none, some "E"⟩ 6 0).2.2.1 (by decide),
   (C10_frame_spec demoStore "zz" "a" ⟨"T2", "C2"⟩ ⟨none, some "E"⟩ 6 0).2.2.2.1,
   (C10_frame_spec demoStore "zz" "a" ⟨"T2", "C2"⟩ ⟨none, some "E"⟩ 6 0).2.2.2.2⟩

end NotesBackend
